import Mathlib

/-!
Verification of the crx-util extraction pipeline against its specification.

The definitions below are a shallow embedding of the TypeScript sources:

* `src/errors/index.ts`        → `CRXErrorKind`
* `src/config/defaults.ts`     → `ExtractorConfig`, `DEFAULT_CONFIG`
* `src/core/crx-extractor.ts`  → `readUInt32LEAt`, `parseHeader`,
  `validateZipSecurity`, `loadLocalFile`, `extractZipRun`, `extractRun`
* `src/utils/path.ts`          → `PathUtils.join`, `PathUtils.normalize`
* `src/validators/path.ts`     → `PathValidator`, `validatePath`,
  `sanitizeFilename`

Machine integers are modelled as `Nat` (all the quantities involved are
non-negative JavaScript numbers, exact below 2^53); byte buffers are
`List Nat` where the reader masks each entry with `% 256`, mirroring the
`Uint8Array` element coercion; strings are `List Char`; thrown exceptions
become `Except` values; the filesystem and subprocess effects of the
extraction pipeline are modelled by an explicit environment record plus an
ordered trace of attempted effects.
-/

/-- Error classes of `src/errors/index.ts`, keyed by their stable code:
`VALIDATION_ERROR`, `DOWNLOAD_ERROR`, `EXTRACTION_ERROR`, `SECURITY_ERROR`. -/
inductive CRXErrorKind where
  | validation
  | download
  | extraction
  | security
  deriving DecidableEq

/-- Decidable equality for `Except`, used to evaluate the embedded
operations on concrete inputs. -/
instance exceptDecEq {e a : Type} [DecidableEq e] [DecidableEq a] :
    DecidableEq (Except e a) := fun x y =>
  match x, y with
  | .ok v, .ok w =>
    if h : v = w then .isTrue (by rw [h]) else .isFalse (by simp [h])
  | .error v, .error w =>
    if h : v = w then .isTrue (by rw [h]) else .isFalse (by simp [h])
  | .ok _, .error _ => .isFalse (by simp)
  | .error _, .ok _ => .isFalse (by simp)

/-- Configuration record of `src/config/types.ts`.  The source field
`maxExtractionRatio` is embedded as ` maxRatioLimit` (the semantics are
unchanged, only the Lean identifier differs). -/
structure ExtractorConfig where
  maxFileSize : Nat
  downloadTimeout : Nat
  maxRatioLimit : Nat
  maxExtractedFiles : Nat
  maxExtractedSize : Nat
  allowedOutputPaths : List (List Char)
  extensionsDir : List Char
  deriving DecidableEq

/-- Mirrors `DEFAULT_CONFIG` of `src/config/defaults.ts`. -/
def DEFAULT_CONFIG : ExtractorConfig :=
  { maxFileSize := 500 * 1024 * 1024
  , downloadTimeout := 30000
  , maxRatioLimit := 100
  , maxExtractedFiles := 10000
  , maxExtractedSize := 1024 * 1024 * 1024
  , allowedOutputPaths := [['.']]
  , extensionsDir := "_extensions".toList }

/-- Mirrors `CRX_MAGIC` of `src/config/constants.ts` (the bytes `Cr24`). -/
def CRX_MAGIC : Nat := 0x34327243

/-- Summary of an archive prior to decompression (`ZipInfo` in
`src/types/index.ts`): entry count and total uncompressed size come from the
`unzip -l` listing, `compressedSize` is the staged file's on-disk size. -/
structure ZipInfo where
  fileCount : Nat
  uncompressedSize : Nat
  compressedSize : Nat
  deriving DecidableEq

/-- The three ZIP-bomb ceilings, in the order `validateZipSecurity` tests
them. -/
inductive SecViolation where
  | suspiciousCompressionRatioKind
  | tooManyFilesKind
  | extractedSizeTooLargeKind
  deriving DecidableEq

/-- Mirrors the JavaScript comparison
`info.uncompressedSize / info.compressedSize > limit` of
`CRXExtractor.validateZipSecurity` (src/core/crx-extractor.ts line 350).
JavaScript divides as IEEE doubles with no zero guard: `0 / 0` is `NaN` and
every comparison against `NaN` is false, `u / 0` for `u > 0` is `Infinity`
which exceeds every finite limit, and for a non-zero divisor the comparison
agrees with exact rational division (the sizes in play are far below 2^53).
-/
def ratioGt (u c limit : Nat) : Bool :=
  if c = 0 then decide (u ≠ 0) else decide (limit * c < u)

/-- Mirrors `CRXExtractor.validateZipSecurity` (src/core/crx-extractor.ts
lines 345-370): ratio ceiling, then file-count ceiling, then
uncompressed-size ceiling; the first strict violation wins. -/
def validateZipSecurity (cfg : ExtractorConfig) (info : ZipInfo) :
    Except SecViolation Unit :=
  if ratioGt info.uncompressedSize info.compressedSize cfg.maxRatioLimit then
    .error .suspiciousCompressionRatioKind
  else if info.fileCount > cfg.maxExtractedFiles then
    .error .tooManyFilesKind
  else if info.uncompressedSize > cfg.maxExtractedSize then
    .error .extractedSizeTooLargeKind
  else
    .ok ()

/-- Byte access of a `Uint8Array` buffer: entries are reduced mod 256 the way
the typed array coerces stores, and `buffer[i] ?? 0` defaults to zero. -/
def byteAt (buf : List Nat) (i : Nat) : Nat := buf.getD i 0 % 256

/-- Mirrors `CRXExtractor.readUInt32LEAt` (src/core/crx-extractor.ts lines
250-258): bounds check, then little-endian assembly of four bytes.  The
source expression `(b0 | b1 << 8 | b2 << 16 | b3 << 24) >>> 0` equals this
sum because the four byte fields occupy disjoint bit ranges. -/
def readUInt32LEAt (buf : List Nat) (off : Nat) : Except CRXErrorKind Nat :=
  if off + 4 > buf.length then
    .error .validation
  else
    .ok (byteAt buf off + 256 * byteAt buf (off + 1) +
      65536 * byteAt buf (off + 2) + 16777216 * byteAt buf (off + 3))

/-- Parsed CRX header (`CRXHeader` in `src/types/index.ts`). -/
structure CRXHeader where
  version : Nat
  zipOffset : Nat
  deriving DecidableEq

/-- Mirrors `CRXExtractor.parseHeader` (src/core/crx-extractor.ts lines
275-312): magic at offset 0, version at offset 4, then the version-specific
length fields; finally the parsed offset must be strictly below the buffer
length.  All throws in the source path are `ValidationError`. -/
def parseHeader (buf : List Nat) : Except CRXErrorKind CRXHeader :=
  match readUInt32LEAt buf 0 with
  | .error e => .error e
  | .ok magic =>
    if magic ≠ CRX_MAGIC then .error .validation
    else
      match readUInt32LEAt buf 4 with
      | .error e => .error e
      | .ok version =>
        if version = 2 then
          match readUInt32LEAt buf 8 with
          | .error e => .error e
          | .ok publicKeyLength =>
            match readUInt32LEAt buf 12 with
            | .error e => .error e
            | .ok signatureLength =>
              let zipOffset := 16 + publicKeyLength + signatureLength
              if zipOffset ≥ buf.length then .error .validation
              else .ok ⟨2, zipOffset⟩
        else if version = 3 then
          match readUInt32LEAt buf 8 with
          | .error e => .error e
          | .ok headerSize =>
            let zipOffset := 12 + headerSize
            if zipOffset ≥ buf.length then .error .validation
            else .ok ⟨3, zipOffset⟩
        else .error .validation

/-- Collapses every run of consecutive slashes to a single slash, the effect
of the first replace `/\/+/g → '/'` in `PathUtils.join`
(src/utils/path.ts line 78). -/
def collapseSlashes : List Char → List Char
  | [] => []
  | a :: rest =>
    match rest with
    | [] => [a]
    | b :: _ => if a = '/' && b = '/' then collapseSlashes rest
                else a :: collapseSlashes rest

/-- Single left-to-right pass replacing `/./` by `/`, the second replace of
`PathUtils.join` (src/utils/path.ts line 79).  As with the JavaScript global
replace, scanning resumes after each match, so overlapping occurrences are
not re-examined. -/
def removeDotSlash : List Char → List Char
  | '/' :: '.' :: '/' :: rest => '/' :: removeDotSlash rest
  | c :: rest => c :: removeDotSlash rest
  | [] => []

/-- Attempts to match the regex `([^/]+)\/\.\.\/` at the head of a list that
starts with a non-slash character: take the maximal run of non-slash
characters, then require the literal `/../`.  Returns the remainder after
the match. -/
def dropSegDotDot (l : List Char) : Option (List Char) :=
  match l.dropWhile (· ≠ '/') with
  | '/' :: '.' :: '.' :: '/' :: rest => some rest
  | _ => none

/-- Fuel-indexed scanner for the third replace of `PathUtils.join`
(src/utils/path.ts line 80), the global replace of `([^/]+)\/\.\.\/` by the
empty string.  At each position either a whole `segment/../` group is
deleted and scanning resumes after it, or one character is emitted — exactly
the JavaScript global-replace behaviour.  The fuel only serves to make the
recursion structural; `removeSegDotDot` supplies the list length, which is
always sufficient because every step consumes at least one character. -/
def removeSegDotDotAux : Nat → List Char → List Char
  | 0, l => l
  | _ + 1, [] => []
  | fuel + 1, c :: rest =>
    if c = '/' then c :: removeSegDotDotAux fuel rest
    else
      match dropSegDotDot (c :: rest) with
      | some rest2 => removeSegDotDotAux fuel rest2
      | none => c :: removeSegDotDotAux fuel rest

/-- Single pass of the `([^/]+)\/\.\.\/ → ''` replace of `PathUtils.join`. -/
def removeSegDotDot (l : List Char) : List Char :=
  removeSegDotDotAux l.length l

/-- Removes one trailing slash if present, the final replace `/\/$/ → ''` of
`PathUtils.join` (src/utils/path.ts line 81). -/
def stripTrailingSlash (l : List Char) : List Char :=
  match l.reverse with
  | '/' :: rest => rest.reverse
  | _ => l

/-- Mirrors `PathUtils.join` (src/utils/path.ts lines 77-82): drop empty
segments, join with `/`, then the four chained regex replaces. -/
def joinSegs (segments : List (List Char)) : List Char :=
  stripTrailingSlash (removeSegDotDot (removeDotSlash (collapseSlashes
    (List.intercalate ['/'] (segments.filter (· ≠ []))))))

/-- Splits a character list on `/`, mirroring `path.split('/')`. -/
def splitSlashAux : List Char → List Char → List (List Char)
  | [], acc => [acc.reverse]
  | c :: rest, acc =>
    if c = '/' then acc.reverse :: splitSlashAux rest []
    else splitSlashAux rest (c :: acc)

/-- Stack phase of `PathUtils.normalize` (src/utils/path.ts lines 113-129):
skip empty and `.` parts, on `..` pop the last pushed part (a no-op on an
empty stack, which clamps climbs at the root), push everything else.  The
accumulator holds the pushed parts most-recent first. -/
def normStack : List (List Char) → List (List Char) → List (List Char)
  | [], acc => acc.reverse
  | p :: rest, acc =>
    if p = [] ∨ p = ['.'] then normStack rest acc
    else if p = ['.', '.'] then normStack rest acc.tail
    else normStack rest (p :: acc)

/-- Mirrors `PathUtils.normalize` (src/utils/path.ts lines 113-129): pure
lexical resolution of `.` and `..` with root clamping; an empty outcome
becomes `.` (the JavaScript `normalized || '.'`). -/
def normalizePath (path : List Char) : List Char :=
  let parts := splitSlashAux path []
  let res := normStack parts []
  let normalized :=
    (if path.head? = some '/' then ['/'] else []) ++ List.intercalate ['/'] res
  if normalized = [] then ['.'] else normalized

/-- State captured by `PathValidator` at construction
(src/validators/path.ts lines 6-26): the process working directory snapshot
and the allowed roots pre-resolved against it. -/
structure PathValidator where
  workingDirectory : List Char
  resolvedAllowedPaths : List (List Char)

/-- Mirrors the `PathValidator` constructor (src/validators/path.ts lines
10-26).  `processCwd` is the value `process.cwd()` returns at construction
time; the literal root `.` becomes that snapshot, other relative roots are
joined onto it, absolute roots are kept verbatim. -/
def mkPathValidator (allowedPaths : List (List Char)) (processCwd : List Char) :
    PathValidator :=
  { workingDirectory := processCwd
  , resolvedAllowedPaths := allowedPaths.map fun p =>
      if p = ['.'] then processCwd
      else if p.head? ≠ some '/' then joinSegs [processCwd, p]
      else p }

/-- Mirrors `PathUtils.resolve` (src/utils/path.ts lines 97-108): join the
segments, return absolute results verbatim, otherwise join onto
`import.meta.dir` — a constant of the loaded module, passed here explicitly
as `metaDir`. -/
def pathResolve (metaDir : List Char) (segments : List (List Char)) : List Char :=
  let joined := joinSegs segments
  if joined.head? = some '/' then joined else joinSegs [metaDir, joined]

/-- Mirrors `PathValidator.validatePath` (src/validators/path.ts lines
31-57).  `metaDir` models the module constant `import.meta.dir` used by
`PathUtils.resolve`; `processCwdNow` models what `process.cwd()` would
return at call time — the source method never calls `process.cwd()` (it
reads only the constructor snapshot `this.workingDirectory`), so this
argument is deliberately unused, making the trust-boundary snapshot explicit
in the embedding.  A rejected path throws `SecurityError` in the source. -/
def validatePath (v : PathValidator) (path : List Char)
    (baseDir : Option (List Char)) (metaDir processCwdNow : List Char) :
    Except CRXErrorKind (List Char) :=
  let resolved :=
    match baseDir with
    | some b => pathResolve metaDir [b, path]
    | none =>
      if path.head? ≠ some '/' then joinSegs [v.workingDirectory, path]
      else path
  let normalized := normalizePath resolved
  let isAllowed := v.resolvedAllowedPaths.any fun allowed =>
    let an := normalizePath allowed
    decide ((an ++ ['/']).isPrefixOf normalized) || decide (normalized = an)
  if isAllowed then .ok normalized else .error .security

/-- Modelled from the spec (section 4.5, steps 1-2, and the claim): the
lexically normalized absolute form of a candidate — the candidate itself
when absolute, otherwise the plain join of the captured working directory
and the candidate — with `.` and `..` resolved lexically and climbs clamped
at the root. -/
def specNormalizedForm (wd p : List Char) : List Char :=
  normalizePath (if p.head? = some '/' then p else wd ++ ['/'] ++ p)

/-- Modelled from the spec (section 4.5, step 3): accept exactly when the
lexically normalized absolute form of the candidate equals some resolved
allowed root or is a strict descendant of one (the normalized form starts
with the root followed by the separator). -/
def specResolveAccepts (wd : List Char) (roots : List (List Char))
    (p : List Char) : Bool :=
  (mkPathValidator roots wd).resolvedAllowedPaths.any fun r =>
    let n := specNormalizedForm wd p
    decide (n = normalizePath r) || decide ((normalizePath r ++ ['/']).isPrefixOf n)

/-- Character class `[<>:"/\\|?*\x00-\x1f]` of
`PathValidator.sanitizeFilename` (src/validators/path.ts line 64). -/
def isIllegalFilenameChar (c : Char) : Bool :=
  decide (c = '<') || decide (c = '>') || decide (c = ':') || decide (c = '"') ||
    decide (c = '/') || decide (c = '\\') || decide (c = '|') ||
    decide (c = '?') || decide (c = '*') || decide (c.toNat ≤ 31)

/-- First replace of `sanitizeFilename`: every filesystem-illegal or control
character becomes an underscore. -/
def charRep (l : List Char) : List Char :=
  l.map fun c => if isIllegalFilenameChar c then '_' else c

/-- Scanner for the global replace `/\.{2,}/g → '_'` of `sanitizeFilename`
(src/validators/path.ts line 64): a maximal run of two or more dots is
replaced by a single underscore.  The flag records being inside a run whose
underscore has already been emitted. -/
def dotRepState : Bool → List Char → List Char
  | _, [] => []
  | inRun, c :: rest =>
    if c = '.' then
      if inRun then dotRepState true rest
      else if rest.head? = some '.' then '_' :: dotRepState true rest
      else '.' :: dotRepState false rest
    else c :: dotRepState false rest

/-- The `/\.{2,}/g → '_'` replace of `sanitizeFilename`. -/
def dotCollapse (l : List Char) : List Char := dotRepState false l

/-- The JavaScript `String.prototype.trim` whitespace class. -/
def isJsSpaceChar (c : Char) : Bool :=
  ['\t', '\n', '\x0B', '\x0C', '\r', ' ', '\xA0', ' ', ' ',
   ' ', ' ', ' ', ' ', ' ', ' ', ' ',
   ' ', ' ', ' ', ' ', ' ', ' ', ' ',
   '　', '﻿'].contains c

/-- Removes trailing JavaScript whitespace. -/
def trimRightJs : List Char → List Char
  | [] => []
  | c :: rest =>
    if (trimRightJs rest).isEmpty && isJsSpaceChar c then []
    else c :: trimRightJs rest

/-- Mirrors `String.prototype.trim`: strip leading and trailing whitespace. -/
def trimJs (l : List Char) : List Char :=
  trimRightJs (l.dropWhile fun c => isJsSpaceChar c)

/-- Mirrors `PathValidator.sanitizeFilename` (src/validators/path.ts lines
62-78): replace illegal characters, collapse dot runs, trim, then truncate
to 200 characters, and fall back to `unnamed` when empty. -/
def sanitizeFilename (name : List Char) : List Char :=
  let s := trimJs (dotCollapse (charRep name))
  let t := if s.length > 200 then s.take 200 else s
  if t = [] then "unnamed".toList else t

/-- Result of the three concurrent filesystem probes of
`CRXExtractor.loadLocalFile` (src/core/crx-extractor.ts lines 218-222):
existence, stat (size), and full content read; the latter two are `none`
when the underlying operation rejected. -/
structure LocalFS where
  fileExists : Bool
  statSize : Option Nat
  contents : Option (List Nat)
  deriving DecidableEq

/-- Mirrors `CRXExtractor.loadLocalFile` (src/core/crx-extractor.ts lines
213-245): any failed probe gives `ValidationError`; a stat size above
`maxFileSize` gives `ValidationError`; only then is the buffer accepted.
The source assigns `this.buffer` only on the success path, which is why the
pipeline model leaves its buffer state unset whenever this returns an
error. -/
def loadLocalFile (cfg : ExtractorConfig) (fs : LocalFS) :
    Except CRXErrorKind (List Nat) :=
  match fs.statSize, fs.contents with
  | some size, some buf =>
    if fs.fileExists = false then .error .validation
    else if size > cfg.maxFileSize then .error .validation
    else .ok buf
  | _, _ => .error .validation

/-- Effects the extraction pipeline attempts, in program order.  Each
constructor marks the point where `extract`/`extractZip` issues the
corresponding filesystem or subprocess operation
(src/core/crx-extractor.ts lines 389-432 and 471-537). -/
inductive Ev where
  | loadInput
  | parseHdr
  | validateOutDir
  | ensureParentDir
  | clearOutputDir
  | writeCrxFile
  | mkTempDir
  | stageZip
  | securityCheck
  | runUnzip
  | publishMove
  | writeFallback
  | removeTempDir
  | readManifest
  deriving DecidableEq

/-- Environment for one `extractZip` call: outcome of creating the temporary
directory (`ensureDirectory` rethrows `SecurityError` and wraps other
failures as `ExtractionError`), the `unzip -l` summary (`none` when the
listing cannot be parsed, which surfaces as `ExtractionError`), and the exit
code of the `unzip` subprocess. -/
structure ZipEnv where
  tempDirFail : Option CRXErrorKind
  zipInfo : Option ZipInfo
  unzipExitCode : Nat
  deriving DecidableEq

/-- The `try` block of `CRXExtractor.extractZip` (src/core/crx-extractor.ts
lines 394-415): create the temp directory, stage the archive, run the
security gate, run `unzip`, move the results into the output directory.
Returns the attempted effects in order and the error the block throws, if
any. -/
def extractZipTry (cfg : ExtractorConfig) (env : ZipEnv) :
    List Ev × Option CRXErrorKind :=
  match env.tempDirFail with
  | some k => ([.mkTempDir], some k)
  | none =>
    match env.zipInfo with
    | none => ([.mkTempDir, .stageZip, .securityCheck], some .extraction)
    | some info =>
      match validateZipSecurity cfg info with
      | .error _ => ([.mkTempDir, .stageZip, .securityCheck], some .security)
      | .ok _ =>
        if env.unzipExitCode ≠ 0 then
          ([.mkTempDir, .stageZip, .securityCheck, .runUnzip], some .extraction)
        else
          ([.mkTempDir, .stageZip, .securityCheck, .runUnzip, .publishMove], none)

/-- Mirrors `CRXExtractor.extractZip` (src/core/crx-extractor.ts lines
389-432) around its `try`: the `catch` block intercepts every error, writes
the staged payload to `failed_extraction.zip` inside the output directory,
and rethrows as `ExtractionError`; the `finally` block attempts removal of
the temporary directory on every exit path. -/
def extractZipRun (cfg : ExtractorConfig) (env : ZipEnv) :
    List Ev × Option CRXErrorKind :=
  match extractZipTry cfg env with
  | (evs, none) => (evs ++ [.removeTempDir], none)
  | (evs, some _) => (evs ++ [.writeFallback, .removeTempDir], some .extraction)

/-- Environment for one full `extract` run in local-file mode: the local
filesystem probes, the outcomes of the three path-guarded preparation steps
(`validatePath` on the output directory, `ensureDirectory` on its parent,
and the guarded save of the original CRX file), and the `extractZip`
environment.  Remote acquisition is network I/O and is outside this model;
every claim below concerns local-mode or later stages. -/
structure ExtractEnv where
  fs : LocalFS
  outDirFail : Option CRXErrorKind
  parentDirFail : Option CRXErrorKind
  crxSaveFail : Option CRXErrorKind
  zipEnv : ZipEnv
  deriving DecidableEq

/-- Mirrors `CRXExtractor.extract` (src/core/crx-extractor.ts lines
471-537) in local-file mode: load, parse the header, validate the output
directory, create its parent, destructively clear and recreate the output
directory (`rm -rf ${outDir} && mkdir -p ${outDir}`, line 507), save the
original CRX, run `extractZip`, and finally read the manifest.  Returns the
ordered trace of attempted effects, the state of the extractor's buffer
field, and the terminal error, if any. -/
def extractRun (cfg : ExtractorConfig) (env : ExtractEnv) :
    List Ev × Option (List Nat) × Option CRXErrorKind :=
  match loadLocalFile cfg env.fs with
  | .error k => ([.loadInput], none, some k)
  | .ok buf =>
    match parseHeader buf with
    | .error k => ([.loadInput, .parseHdr], some buf, some k)
    | .ok _ =>
      match env.outDirFail with
      | some k => ([.loadInput, .parseHdr, .validateOutDir], some buf, some k)
      | none =>
        match env.parentDirFail with
        | some k =>
          ([.loadInput, .parseHdr, .validateOutDir, .ensureParentDir],
            some buf, some k)
        | none =>
          let evs0 := [Ev.loadInput, .parseHdr, .validateOutDir,
            .ensureParentDir, .clearOutputDir]
          match env.crxSaveFail with
          | some k => (evs0 ++ [.writeCrxFile], some buf, some k)
          | none =>
            match extractZipRun cfg env.zipEnv with
            | (zevs, some k) =>
              (evs0 ++ [.writeCrxFile] ++ zevs, some buf, some k)
            | (zevs, none) =>
              (evs0 ++ [.writeCrxFile] ++ zevs ++ [.readManifest],
                some buf, none)

/-- Detects two adjacent dots, i.e. a match of the regex `\.{2,}`. -/
def hasDD : List Char → Bool
  | [] => false
  | c :: rest => (decide (c = '.') && decide (rest.head? = some '.')) || hasDD rest

/-- An `extractZip` environment whose archive summary violates the default
file-count ceiling (10001 entries against the ceiling of 10000) while
passing the ratio check. -/
def zenvTooManyFiles : ZipEnv :=
  { tempDirFail := none
  , zipInfo := some ⟨10001, 1000, 1000⟩
  , unzipExitCode := 0 }

/-- A 13-byte well-formed version-3 CRX container: magic `Cr24`, version 3,
header size 0, one payload byte. -/
def crxBuf3 : List Nat := [67, 114, 50, 52, 3, 0, 0, 0, 0, 0, 0, 0, 80]

/-- A full-run environment that succeeds up to the security gate and is then
rejected there for carrying too many entries. -/
def envTooManyFiles : ExtractEnv :=
  { fs := { fileExists := true, statSize := some 13, contents := some crxBuf3 }
  , outDirFail := none
  , parentDirFail := none
  , crxSaveFail := none
  , zipEnv := zenvTooManyFiles }

/-- A 202-character name: `a`, two hundred spaces, `b`.  Sanitizing trims
nothing (the whitespace is interior), then truncation to 200 characters cuts
the final `b` off and exposes 199 trailing spaces. -/
def longSpacedName : List Char := 'a' :: (List.replicate 200 ' ' ++ ['b'])

/-- The temporary-directory cleanup of `extractZip`'s `finally` block appears
in the effect trace of every run of the step. -/
lemma removeTempDir_mem_extractZipRun (cfg : ExtractorConfig) (env : ZipEnv) :
    Ev.removeTempDir ∈ (extractZipRun cfg env).1 := by
  unfold extractZipRun
  split <;> simp_all

/-- Exhaustive list of outcomes of the extraction step. -/
lemma extractZipRun_cases (cfg : ExtractorConfig) (env : ZipEnv) :
    extractZipRun cfg env ∈
      ([([Ev.mkTempDir, Ev.writeFallback, Ev.removeTempDir],
          some CRXErrorKind.extraction),
        ([Ev.mkTempDir, Ev.stageZip, Ev.securityCheck, Ev.writeFallback,
          Ev.removeTempDir], some CRXErrorKind.extraction),
        ([Ev.mkTempDir, Ev.stageZip, Ev.securityCheck, Ev.runUnzip,
          Ev.writeFallback, Ev.removeTempDir], some CRXErrorKind.extraction),
        ([Ev.mkTempDir, Ev.stageZip, Ev.securityCheck, Ev.runUnzip,
          Ev.publishMove, Ev.removeTempDir], none)] :
        List (List Ev × Option CRXErrorKind)) := by
  rcases env with ⟨tmp, zi, exit⟩
  cases tmp with
  | some k => simp [extractZipRun, extractZipTry]
  | none =>
    cases zi with
    | none => simp [extractZipRun, extractZipTry]
    | some info =>
      cases hsec : validateZipSecurity cfg info with
      | error v => simp [extractZipRun, extractZipTry, hsec]
      | ok u =>
        by_cases hx : exit = 0 <;>
          simp [extractZipRun, extractZipTry, hsec, hx]

/-- Exhaustive list of effect traces a full run can produce. -/
lemma extractRun_trace_cases (cfg : ExtractorConfig) (env : ExtractEnv) :
    (extractRun cfg env).1 ∈
      ([[Ev.loadInput],
        [Ev.loadInput, Ev.parseHdr],
        [Ev.loadInput, Ev.parseHdr, Ev.validateOutDir],
        [Ev.loadInput, Ev.parseHdr, Ev.validateOutDir, Ev.ensureParentDir],
        [Ev.loadInput, Ev.parseHdr, Ev.validateOutDir, Ev.ensureParentDir,
          Ev.clearOutputDir, Ev.writeCrxFile],
        [Ev.loadInput, Ev.parseHdr, Ev.validateOutDir, Ev.ensureParentDir,
          Ev.clearOutputDir, Ev.writeCrxFile, Ev.mkTempDir, Ev.writeFallback,
          Ev.removeTempDir],
        [Ev.loadInput, Ev.parseHdr, Ev.validateOutDir, Ev.ensureParentDir,
          Ev.clearOutputDir, Ev.writeCrxFile, Ev.mkTempDir, Ev.stageZip,
          Ev.securityCheck, Ev.writeFallback, Ev.removeTempDir],
        [Ev.loadInput, Ev.parseHdr, Ev.validateOutDir, Ev.ensureParentDir,
          Ev.clearOutputDir, Ev.writeCrxFile, Ev.mkTempDir, Ev.stageZip,
          Ev.securityCheck, Ev.runUnzip, Ev.writeFallback, Ev.removeTempDir],
        [Ev.loadInput, Ev.parseHdr, Ev.validateOutDir, Ev.ensureParentDir,
          Ev.clearOutputDir, Ev.writeCrxFile, Ev.mkTempDir, Ev.stageZip,
          Ev.securityCheck, Ev.runUnzip, Ev.publishMove, Ev.removeTempDir,
          Ev.readManifest]] : List (List Ev)) := by
  unfold extractRun
  cases hload : loadLocalFile cfg env.fs with
  | error k => simp
  | ok buf =>
    dsimp only
    cases hparse : parseHeader buf with
    | error k => simp
    | ok hdr =>
      dsimp only
      cases hout : env.outDirFail with
      | some k => simp
      | none =>
        dsimp only
        cases hpar : env.parentDirFail with
        | some k => simp
        | none =>
          dsimp only
          cases hcrx : env.crxSaveFail with
          | some k => simp
          | none =>
            dsimp only
            have hz := extractZipRun_cases cfg env.zipEnv
            simp only [List.mem_cons, List.not_mem_nil, or_false] at hz
            rcases hz with hz | hz | hz | hz <;> rw [hz] <;> simp

/-- C4: the security gate tests the ratio ceiling, then the file-count
ceiling, then the uncompressed-size ceiling, the first strict violation
determining the error kind; equality with a ceiling passes, and with the
default configuration a 10000-entry summary passes while a 10001-entry
summary is rejected for too many files. -/
theorem claim_C4_gate_order (cfg : ExtractorConfig) (info : ZipInfo) :
    (validateZipSecurity cfg info = .error .suspiciousCompressionRatioKind ↔
      ratioGt info.uncompressedSize info.compressedSize cfg.maxRatioLimit = true) ∧
    (validateZipSecurity cfg info = .error .tooManyFilesKind ↔
      ratioGt info.uncompressedSize info.compressedSize cfg.maxRatioLimit = false ∧
        info.fileCount > cfg.maxExtractedFiles) ∧
    (validateZipSecurity cfg info = .error .extractedSizeTooLargeKind ↔
      ratioGt info.uncompressedSize info.compressedSize cfg.maxRatioLimit = false ∧
        info.fileCount ≤ cfg.maxExtractedFiles ∧
        info.uncompressedSize > cfg.maxExtractedSize) ∧
    validateZipSecurity DEFAULT_CONFIG ⟨10000, 1000, 1000⟩ = .ok () ∧
    validateZipSecurity DEFAULT_CONFIG ⟨10001, 1000, 1000⟩ =
      .error .tooManyFilesKind := by
  refine ⟨?_, ?_, ?_, by decide, by decide⟩ <;>
    · unfold validateZipSecurity
      split_ifs with h1 h2 h3 <;> simp_all

/-- C10: the ratio check rejects exactly under the JavaScript comparison
`uncompressedSize / compressedSize > maxExtractionRatio`, which for a
non-zero compressed size agrees with exact rational division and which has
no special guard for a zero compressed size: `u / 0` is `Infinity` for
`u > 0` (rejected), while `0 / 0` is `NaN` (every comparison false, so the
all-zero summary passes the whole gate). -/
theorem claim_C10_ratio_division (cfg : ExtractorConfig) (info : ZipInfo) :
    (validateZipSecurity cfg info = .error .suspiciousCompressionRatioKind ↔
      ratioGt info.uncompressedSize info.compressedSize cfg.maxRatioLimit = true) ∧
    (info.compressedSize ≠ 0 →
      (ratioGt info.uncompressedSize info.compressedSize cfg.maxRatioLimit = true ↔
        (cfg.maxRatioLimit : ℚ) <
          (info.uncompressedSize : ℚ) / (info.compressedSize : ℚ))) ∧
    (info.compressedSize = 0 → info.uncompressedSize ≠ 0 →
      validateZipSecurity cfg info = .error .suspiciousCompressionRatioKind) ∧
    (info.compressedSize = 0 → info.uncompressedSize = 0 →
      validateZipSecurity cfg info ≠ .error .suspiciousCompressionRatioKind) ∧
    validateZipSecurity DEFAULT_CONFIG ⟨0, 0, 0⟩ = .ok () := by
  refine ⟨?_, ?_, ?_, ?_, by decide⟩
  · unfold validateZipSecurity
    split_ifs with h1 h2 h3 <;> simp_all
  · intro hc
    have hc' : (0 : ℚ) < (info.compressedSize : ℚ) := by
      exact_mod_cast Nat.pos_of_ne_zero hc
    unfold ratioGt
    rw [if_neg hc, decide_eq_true_eq, lt_div_iff₀ hc']
    exact_mod_cast Iff.rfl
  · intro hc hu
    unfold validateZipSecurity ratioGt
    rw [hc]
    simp [hu]
  · intro hc hu
    unfold validateZipSecurity ratioGt
    rw [hc]
    simp only [hu, if_pos rfl]
    norm_num
    split <;> simp

/-- C9: path validation depends only on the state captured at construction
plus the candidate; two calls with the same candidate and base agree even
when the process working directory at call time differs, because the source
method never re-reads `process.cwd()` during validation. -/
theorem claim_C9_cwd_determinism (allowed : List (List Char))
    (cwdSnap metaDir p : List Char) (b : Option (List Char))
    (cwd1 cwd2 : List Char) :
    validatePath (mkPathValidator allowed cwdSnap) p b metaDir cwd1 =
      validatePath (mkPathValidator allowed cwdSnap) p b metaDir cwd2 := rfl

/-- C5: every accepted header satisfies the version-specific offset
equation — `zipOffset = 12 + headerSize` for version 3 and
`zipOffset = 16 + publicKeyLength + signatureLength` for version 2 — and the
accepted offset is strictly below the buffer length. -/
theorem claim_C5_header_offsets (buf : List Nat) (h : CRXHeader)
    (hp : parseHeader buf = .ok h) :
    (h.version = 3 → ∃ headerSize, readUInt32LEAt buf 8 = .ok headerSize ∧
      h.zipOffset = 12 + headerSize) ∧
    (h.version = 2 → ∃ pk sig, readUInt32LEAt buf 8 = .ok pk ∧
      readUInt32LEAt buf 12 = .ok sig ∧ h.zipOffset = 16 + pk + sig) ∧
    h.zipOffset < buf.length := by
  unfold parseHeader at hp
  repeat' split at hp
  all_goals (try simp_all)
  all_goals (split_ifs at hp <;> try simp_all [Nat.not_le])
  all_goals (subst hp; simp_all)

/-- C5 witness: the concrete version-3 container `crxBuf3` parses to the
header `⟨3, 12⟩`, instantiating the offset equations. -/
theorem claim_C5_witness :
    ((CRXHeader.mk 3 12).version = 3 → ∃ headerSize,
      readUInt32LEAt crxBuf3 8 = .ok headerSize ∧
      (CRXHeader.mk 3 12).zipOffset = 12 + headerSize) ∧
    ((CRXHeader.mk 3 12).version = 2 → ∃ pk sig,
      readUInt32LEAt crxBuf3 8 = .ok pk ∧
      readUInt32LEAt crxBuf3 12 = .ok sig ∧
      (CRXHeader.mk 3 12).zipOffset = 16 + pk + sig) ∧
    (CRXHeader.mk 3 12).zipOffset < crxBuf3.length :=
  claim_C5_header_offsets crxBuf3 ⟨3, 12⟩ (by rfl)

/-- C7: a local file whose stat size exceeds `maxFileSize` makes the whole
run fail with `ValidationError` as its only attempted effect is the load;
header parsing is never attempted and the extractor's buffer stays unset. -/
theorem claim_C7_size_gate (cfg : ExtractorConfig) (env : ExtractEnv) (n : Nat)
    (hex : env.fs.fileExists = true) (hstat : env.fs.statSize = some n)
    (hbuf : ∃ b, env.fs.contents = some b) (hover : n > cfg.maxFileSize) :
    extractRun cfg env = ([.loadInput], none, some .validation) ∧
    Ev.parseHdr ∉ (extractRun cfg env).1 := by
  obtain ⟨b, hb⟩ := hbuf
  have hload : loadLocalFile cfg env.fs = .error .validation := by
    unfold loadLocalFile
    rw [hstat, hb]
    simp [hex, hover]
  have hrun : extractRun cfg env = ([.loadInput], none, some .validation) := by
    unfold extractRun
    rw [hload]
  exact ⟨hrun, by rw [hrun]; decide⟩

/-- C7 witness: a 524288001-byte stat against the default 500 MiB ceiling. -/
theorem claim_C7_witness :
    extractRun DEFAULT_CONFIG
      { fs := { fileExists := true, statSize := some 524288001, contents := some [] }
      , outDirFail := none, parentDirFail := none, crxSaveFail := none
      , zipEnv := zenvTooManyFiles } = ([.loadInput], none, some .validation) ∧
    Ev.parseHdr ∉ (extractRun DEFAULT_CONFIG
      { fs := { fileExists := true, statSize := some 524288001, contents := some [] }
      , outDirFail := none, parentDirFail := none, crxSaveFail := none
      , zipEnv := zenvTooManyFiles }).1 :=
  claim_C7_size_gate _ _ 524288001 rfl rfl ⟨[], rfl⟩ (by decide)

/-- C8: deletion of the temporary staging directory is attempted on every
exit path of the extraction step — unconditionally within `extractZip`
itself, and in every full run that attempts to create the temporary
directory. -/
theorem claim_C8_temp_cleanup (cfg : ExtractorConfig) (env : ExtractEnv) :
    Ev.removeTempDir ∈ (extractZipRun cfg env.zipEnv).1 ∧
    (Ev.mkTempDir ∈ (extractRun cfg env).1 →
      Ev.removeTempDir ∈ (extractRun cfg env).1) := by
  refine ⟨removeTempDir_mem_extractZipRun cfg env.zipEnv, ?_⟩
  intro hmem
  have hz := removeTempDir_mem_extractZipRun cfg env.zipEnv
  unfold extractRun at hmem ⊢
  repeat' split at hmem
  all_goals simp_all

/-- C8 witness: a run that reaches the extraction step attempts the cleanup. -/
theorem claim_C8_witness :
    Ev.removeTempDir ∈ (extractRun DEFAULT_CONFIG envTooManyFiles).1 :=
  (claim_C8_temp_cleanup DEFAULT_CONFIG envTooManyFiles).2 (by decide)

/-- C1 counterexample: a staged archive rejected by the security gate (10001
entries against the default ceiling of 10000) makes the run fail with
`ExtractionError`, not `SecurityError`, and the rejected payload IS
persisted: the fallback write into the output directory is attempted. -/
theorem claim_C1_counterexample :
    validateZipSecurity DEFAULT_CONFIG ⟨10001, 1000, 1000⟩ =
      .error .tooManyFilesKind ∧
    (extractRun DEFAULT_CONFIG envTooManyFiles).2.2 = some .extraction ∧
    (extractRun DEFAULT_CONFIG envTooManyFiles).2.2 ≠ some .security ∧
    Ev.writeFallback ∈ (extractRun DEFAULT_CONFIG envTooManyFiles).1 := by
  refine ⟨rfl, rfl, by decide, by decide⟩

/-- C1 amended: when the security gate rejects the staged archive, the
`catch` block of `extractZip` intercepts the `SecurityError`, writes the
payload to `failed_extraction.zip` inside the output directory, and rethrows
as `ExtractionError`; the temp-directory cleanup still runs. -/
theorem claim_C1_amended (cfg : ExtractorConfig) (env : ZipEnv) (info : ZipInfo)
    (v : SecViolation) (htmp : env.tempDirFail = none)
    (hinfo : env.zipInfo = some info)
    (hsec : validateZipSecurity cfg info = .error v) :
    extractZipRun cfg env =
      ([.mkTempDir, .stageZip, .securityCheck, .writeFallback, .removeTempDir],
        some .extraction) := by
  unfold extractZipRun extractZipTry
  simp only [htmp, hinfo, hsec]
  rfl

/-- C1 witness: the gate rejection at 10001 entries instantiates the amended
behaviour. -/
theorem claim_C1_witness :
    extractZipRun DEFAULT_CONFIG zenvTooManyFiles =
      ([.mkTempDir, .stageZip, .securityCheck, .writeFallback, .removeTempDir],
        some .extraction) :=
  claim_C1_amended DEFAULT_CONFIG zenvTooManyFiles ⟨10001, 1000, 1000⟩
    .tooManyFilesKind rfl rfl rfl

/-- C2 counterexample: a run that fails at the security gate has nonetheless
already cleared the output directory — the destructive `rm -rf` of the prior
contents happens during run preparation, before the gate. -/
theorem claim_C2_counterexample :
    validateZipSecurity DEFAULT_CONFIG ⟨10001, 1000, 1000⟩ =
      .error .tooManyFilesKind ∧
    (extractRun DEFAULT_CONFIG envTooManyFiles).2.2 ≠ none ∧
    Ev.securityCheck ∈ (extractRun DEFAULT_CONFIG envTooManyFiles).1 ∧
    Ev.clearOutputDir ∈ (extractRun DEFAULT_CONFIG envTooManyFiles).1 := by
  refine ⟨rfl, by decide, by decide, by decide⟩

/-- C2 amended: the destructive clearing of the output directory belongs to
the run-preparation step — it precedes the security inspection in every run
that reaches the gate, and it occurs exactly in runs where acquisition,
header parsing, output-path validation and parent-directory creation have
all succeeded (so only runs failing before preparation leave prior contents
unchanged). -/
theorem claim_C2_amended (cfg : ExtractorConfig) (env : ExtractEnv) :
    (Ev.securityCheck ∈ (extractRun cfg env).1 →
      List.Sublist [Ev.clearOutputDir, Ev.securityCheck] (extractRun cfg env).1) ∧
    (Ev.clearOutputDir ∈ (extractRun cfg env).1 →
      (∃ b, loadLocalFile cfg env.fs = .ok b) ∧
      env.outDirFail = none ∧ env.parentDirFail = none) := by
  constructor
  · intro hmem
    have h := extractRun_trace_cases cfg env
    simp only [List.mem_cons, List.not_mem_nil, or_false] at h
    rcases h with h | h | h | h | h | h | h | h | h <;> rw [h] at hmem ⊢ <;>
      first
        | exact absurd hmem (by decide)
        | decide
  · intro hmem
    unfold extractRun at hmem
    repeat' split at hmem
    all_goals simp_all

/-- C2 witness: in a concrete run that reaches the gate, the clearing
precedes the security inspection. -/
theorem claim_C2_witness :
    List.Sublist [Ev.clearOutputDir, Ev.securityCheck]
      (extractRun DEFAULT_CONFIG envTooManyFiles).1 :=
  (claim_C2_amended DEFAULT_CONFIG envTooManyFiles).1 (by decide)

/-- C3 counterexample: the candidate `a/../../../b` against the single root
`.` with working directory `/w`.  Its lexically normalized absolute form is
`/b`, which is outside the root, so the specified resolver must reject it —
but the code accepts it, because `PathUtils.join` pre-collapses the
`a/../` group and then consumes `../../` (treating the first `..` as an
ordinary segment name), yielding `/w/b` before normalization. -/
theorem claim_C3_counterexample :
    specNormalizedForm "/w".toList "a/../../../b".toList = "/b".toList ∧
    specResolveAccepts "/w".toList [".".toList] "a/../../../b".toList = false ∧
    (validatePath (mkPathValidator [".".toList] "/w".toList)
      "a/../../../b".toList none [] []).isOk = true := by
  refine ⟨by decide, by decide, by decide⟩

/-- C3 amended: for absolute candidates no join is involved, and acceptance
coincides exactly with the specified criterion — the lexically normalized
form equals a resolved root or is a strict descendant of one; for relative
candidates the code normalizes `PathUtils.join` of the working directory and
the candidate, where the join's single-pass `segment/../` collapsing is not
pure lexical normalization; the claim's concrete instance stands:
`../../etc/passwd` against the single root `.` is rejected. -/
theorem claim_C3_amended (wd : List Char) (roots : List (List Char))
    (p metaDir cwdNow : List Char) (habs : p.head? = some '/') :
    ((validatePath (mkPathValidator roots wd) p none metaDir cwdNow).isOk = true ↔
      specResolveAccepts wd roots p = true) ∧
    validatePath (mkPathValidator [['.']] "/home/user".toList)
      "../../etc/passwd".toList none metaDir cwdNow = .error .security := by
  constructor
  · unfold validatePath specResolveAccepts specNormalizedForm
    simp only [habs]
    simp only [List.any_eq_true, decide_eq_true_eq, Bool.or_eq_true]
    split_ifs with h <;> simp_all [Except.isOk, Except.toBool, or_comm]
  · rfl

/-- C3 witness: the absolute candidate `/home/user/sub` against root `.`
with working directory `/home/user` instantiates the amended equivalence. -/
theorem claim_C3_witness :
    ((validatePath (mkPathValidator [".".toList] "/home/user".toList)
        "/home/user/sub".toList none [] []).isOk = true ↔
      specResolveAccepts "/home/user".toList [".".toList]
        "/home/user/sub".toList = true) ∧
    validatePath (mkPathValidator [['.']] "/home/user".toList)
      "../../etc/passwd".toList none [] [] = .error .security :=
  claim_C3_amended "/home/user".toList [".".toList] "/home/user/sub".toList
    [] [] (by decide)

/-- Characters surviving the illegal-character replace are never illegal
(the replacement underscore itself is legal). -/
lemma charRep_not_illegal (l : List Char) :
    ∀ c ∈ charRep l, isIllegalFilenameChar c = false := by
  intro c hc
  simp only [charRep, List.mem_map] at hc
  obtain ⟨d, _, hd⟩ := hc
  by_cases h : isIllegalFilenameChar d = true
  · rw [if_pos h] at hd; subst hd; decide
  · rw [if_neg h] at hd; subst hd; simpa using h

/-- The illegal-character replace fixes a list whose characters are all
legal. -/
lemma charRep_eq_self (l : List Char)
    (h : ∀ c ∈ l, isIllegalFilenameChar c = false) : charRep l = l := by
  induction l with
  | nil => rfl
  | cons c rest ih =>
    unfold charRep
    simp only [List.map_cons]
    rw [h c (List.mem_cons_self c rest)]
    exact congrArg _ (ih fun d hd => h d (List.mem_cons_of_mem c hd))

/-- Every character the dot-collapse emits comes from the input or is the
replacement underscore. -/
lemma dotRepState_mem (l : List Char) :
    ∀ (b : Bool) (c : Char), c ∈ dotRepState b l → c ∈ l ∨ c = '_' := by
  induction l with
  | nil => intro b c hc; simp [dotRepState] at hc
  | cons d rest ih =>
    intro b c hc
    unfold dotRepState at hc
    repeat' split at hc
    all_goals (try (rcases List.mem_cons.mp hc with rfl | hc))
    all_goals
      first
      | (rcases ih _ _ hc with h | h
         · exact Or.inl (List.mem_cons_of_mem _ h)
         · exact Or.inr h)
      | simp_all

/-- Trailing-whitespace trimming yields a prefix of its input. -/
lemma trimRightJs_prefixOf (l : List Char) : trimRightJs l <+: l := by
  induction l with
  | nil => simp [trimRightJs]
  | cons c rest ih =>
    unfold trimRightJs
    split
    · exact List.nil_prefix
    · obtain ⟨t, ht⟩ := ih
      exact ⟨t, by rw [List.cons_append, ht]⟩

/-- Full trimming yields a sublist (prefix of a suffix) of its input. -/
lemma trimJs_sublist (l : List Char) : List.Sublist (trimJs l) l :=
  (trimRightJs_prefixOf _).sublist.trans (List.dropWhile_sublist _)

/-- No character of the replace-collapse-trim chain is illegal. -/
lemma sanitize_core_not_illegal (x : List Char) :
    ∀ c ∈ trimJs (dotCollapse (charRep x)), isIllegalFilenameChar c = false := by
  intro c hc
  have h1 : c ∈ dotCollapse (charRep x) :=
    List.Sublist.mem hc (trimJs_sublist _)
  rcases dotRepState_mem _ _ _ h1 with h | rfl
  · exact charRep_not_illegal _ _ h
  · decide

/-- Adjacent dots in a prefix are adjacent dots in the whole list. -/
lemma hasDD_append_left (l t : List Char) (h : hasDD (l ++ t) = false) :
    hasDD l = false := by
  induction l with
  | nil => simp [hasDD]
  | cons c rest ih =>
    rw [List.cons_append] at h
    unfold hasDD at h ⊢
    rw [Bool.or_eq_false_iff] at h ⊢
    refine ⟨?_, ih h.2⟩
    cases rest with
    | nil => simp
    | cons d r2 => simpa using h.1

/-- Adjacent dots in a suffix are adjacent dots in the whole list. -/
lemma hasDD_append_right (t l : List Char) (h : hasDD (t ++ l) = false) :
    hasDD l = false := by
  induction t with
  | nil => simpa using h
  | cons a t2 ih =>
    rw [List.cons_append] at h
    unfold hasDD at h
    rw [Bool.or_eq_false_iff] at h
    exact ih h.2

/-- The dot-collapse never leaves two adjacent dots in its output. -/
lemma hasDD_dotRepState (l : List Char) :
    ∀ b, hasDD (dotRepState b l) = false := by
  induction l with
  | nil => intro b; simp [dotRepState, hasDD]
  | cons c rest ih =>
    intro b
    unfold dotRepState
    split_ifs with h1 h2 h3
    · exact ih true
    · unfold hasDD
      rw [Bool.or_eq_false_iff]
      exact ⟨by simp, ih true⟩
    · unfold hasDD
      rw [Bool.or_eq_false_iff]
      refine ⟨?_, ih false⟩
      cases rest with
      | nil => simp [dotRepState]
      | cons d r2 =>
        have hd : ¬(d = '.') := by simpa using h3
        unfold dotRepState
        rw [if_neg hd]
        simp [hd]
    · unfold hasDD
      rw [Bool.or_eq_false_iff]
      exact ⟨by simp [h1], ih false⟩

/-- The dot-collapse fixes a list without adjacent dots. -/
lemma dotRepState_eq_self (l : List Char) (h : hasDD l = false) :
    dotRepState false l = l := by
  induction l with
  | nil => rfl
  | cons c rest ih =>
    unfold hasDD at h
    rw [Bool.or_eq_false_iff] at h
    unfold dotRepState
    by_cases hc : c = '.'
    · subst hc
      have hh : ¬(rest.head? = some '.') := by simpa using h.1
      simp [hh, ih h.2]
    · simp [hc, ih h.2]

/-- Trailing-whitespace trimming is idempotent. -/
lemma trimRightJs_idem (l : List Char) :
    trimRightJs (trimRightJs l) = trimRightJs l := by
  have heq : ∀ (d : Char) (X : List Char), trimRightJs (d :: X) =
      if (trimRightJs X).isEmpty && isJsSpaceChar d then []
      else d :: trimRightJs X := fun _ _ => rfl
  induction l with
  | nil => rfl
  | cons c rest ih =>
    by_cases h : ((trimRightJs rest).isEmpty && isJsSpaceChar c) = true
    · rw [heq c rest, if_pos h]
      rfl
    · rw [heq c rest, if_neg h, heq c (trimRightJs rest), ih, if_neg h]

/-- Trailing-whitespace trimming either empties a list or preserves its
head. -/
lemma trimRightJs_head (c : Char) (t : List Char) :
    trimRightJs (c :: t) = [] ∨ (trimRightJs (c :: t)).head? = some c := by
  unfold trimRightJs
  split_ifs
  · exact Or.inl rfl
  · exact Or.inr rfl

/-- The head surviving `dropWhile` fails the predicate. -/
lemma dropWhile_head_false (p : Char → Bool) (l : List Char) (c : Char)
    (t : List Char) (h : List.dropWhile p l = c :: t) : p c = false := by
  induction l with
  | nil => simp at h
  | cons a r ih =>
    rw [List.dropWhile_cons] at h
    split_ifs at h with ha
    · exact ih h
    · cases h; simpa using ha

/-- Full trimming is idempotent. -/
lemma trimJs_idem (l : List Char) : trimJs (trimJs l) = trimJs l := by
  unfold trimJs
  have hdw : List.dropWhile (fun c => isJsSpaceChar c)
      (trimRightJs (List.dropWhile (fun c => isJsSpaceChar c) l)) =
      trimRightJs (List.dropWhile (fun c => isJsSpaceChar c) l) := by
    cases hcase : List.dropWhile (fun c => isJsSpaceChar c) l with
    | nil => simp [trimRightJs]
    | cons c t =>
      have hc : isJsSpaceChar c = false := dropWhile_head_false _ _ _ _ hcase
      rcases trimRightJs_head c t with h | h
      · rw [h]; rfl
      · cases h2 : trimRightJs (c :: t) with
        | nil => rfl
        | cons e r =>
          have he : e = c := by
            rw [h2] at h
            simpa using h
          subst he
          rw [List.dropWhile_cons_of_neg]
          simp [hc]
  rw [hdw, trimRightJs_idem]

/-- A legal character is not a slash, not a backslash, and not a control
character. -/
lemma not_illegal_split (c : Char) (h : isIllegalFilenameChar c = false) :
    c ≠ '/' ∧ c ≠ '\\' ∧ 31 < c.toNat := by
  refine ⟨?_, ?_, ?_⟩
  · rintro rfl; exact absurd h (by decide)
  · rintro rfl; exact absurd h (by decide)
  · by_contra hle
    have h31 : c.toNat ≤ 31 := by omega
    unfold isIllegalFilenameChar at h
    simp [h31] at h

/-- C6 amended: `sanitizeFilename` never returns an empty result, never
exceeds 200 characters, and its result contains no `/`, no `\`, and no
control character (U+0000 through U+001F, the class the source strips); it
is idempotent on every input whose trimmed intermediate form is at most 200
characters — that is, whenever the final truncation does not cut the string
(truncation can expose trailing whitespace that a second application would
trim, the one failure mode of idempotence). -/
theorem claim_C6_amended (x : List Char) :
    sanitizeFilename x ≠ [] ∧
    (sanitizeFilename x).length ≤ 200 ∧
    (∀ c ∈ sanitizeFilename x, c ≠ '/' ∧ c ≠ '\\' ∧ 31 < c.toNat) ∧
    ((trimJs (dotCollapse (charRep x))).length ≤ 200 →
      sanitizeFilename (sanitizeFilename x) = sanitizeFilename x) := by
  refine ⟨?_, ?_, ?_, ?_⟩
  · simp only [sanitizeFilename]
    split_ifs with h1 h2 h3 <;> first | decide | assumption
  · simp only [sanitizeFilename]
    split_ifs with h1 h2 h3
    · decide
    · rw [List.length_take]; omega
    · decide
    · omega
  · intro c hc
    simp only [sanitizeFilename] at hc
    split_ifs at hc with h1 h2 h3
    · simp only [show "unnamed".toList = ['u', 'n', 'n', 'a', 'm', 'e', 'd'] from rfl,
        List.mem_cons, List.not_mem_nil, or_false] at hc
      rcases hc with rfl | rfl | rfl | rfl | rfl | rfl | rfl <;> decide
    · have hs : c ∈ trimJs (dotCollapse (charRep x)) :=
        List.Sublist.mem hc (List.take_prefix _ _).sublist
      exact not_illegal_split c (sanitize_core_not_illegal x c hs)
    · simp only [show "unnamed".toList = ['u', 'n', 'n', 'a', 'm', 'e', 'd'] from rfl,
        List.mem_cons, List.not_mem_nil, or_false] at hc
      rcases hc with rfl | rfl | rfl | rfl | rfl | rfl | rfl <;> decide
    · exact not_illegal_split c (sanitize_core_not_illegal x c hc)
  · intro hlen
    have hnot : ¬(trimJs (dotCollapse (charRep x))).length > 200 := by omega
    have hx : sanitizeFilename x =
        if trimJs (dotCollapse (charRep x)) = [] then "unnamed".toList
        else trimJs (dotCollapse (charRep x)) := by
      simp only [sanitizeFilename]
      rw [if_neg hnot]
    rw [hx]
    split_ifs with hse
    · decide
    · have hleg := sanitize_core_not_illegal x
      have h1 : charRep (trimJs (dotCollapse (charRep x))) =
          trimJs (dotCollapse (charRep x)) := charRep_eq_self _ hleg
      have h2 : hasDD (trimJs (dotCollapse (charRep x))) = false := by
        unfold trimJs
        obtain ⟨t2, ht2⟩ := trimRightJs_prefixOf
          (List.dropWhile (fun c => isJsSpaceChar c) (dotCollapse (charRep x)))
        refine hasDD_append_left _ t2 ?_
        rw [ht2]
        obtain ⟨t, ht⟩ := List.dropWhile_suffix
          (l := dotCollapse (charRep x)) (fun c => isJsSpaceChar c)
        refine hasDD_append_right t _ ?_
        rw [ht]
        exact hasDD_dotRepState (charRep x) false
      have h3 : dotCollapse (trimJs (dotCollapse (charRep x))) =
          trimJs (dotCollapse (charRep x)) := dotRepState_eq_self _ h2
      have h4 : trimJs (trimJs (dotCollapse (charRep x))) =
          trimJs (dotCollapse (charRep x)) := trimJs_idem _
      simp only [sanitizeFilename]
      rw [h1, h3, h4, if_neg hnot, if_neg hse]

/-- C6 witness: a short well-behaved name instantiates the amended
properties, idempotence included. -/
theorem claim_C6_witness :
    sanitizeFilename (sanitizeFilename "hello.txt".toList) =
      sanitizeFilename "hello.txt".toList ∧
    sanitizeFilename "hello.txt".toList ≠ [] :=
  ⟨(claim_C6_amended "hello.txt".toList).2.2.2 (by decide),
    (claim_C6_amended "hello.txt".toList).1⟩

set_option maxRecDepth 4000 in
/-- C6 counterexample: sanitizing `a`, two hundred spaces, `b` yields `a`
followed by 199 spaces (truncation exposes trailing whitespace), and a
second application trims them away — `sanitizeFilename` is not idempotent. -/
theorem claim_C6_counterexample :
    sanitizeFilename longSpacedName = 'a' :: List.replicate 199 ' ' ∧
    sanitizeFilename (sanitizeFilename longSpacedName) = ['a'] ∧
    sanitizeFilename (sanitizeFilename longSpacedName) ≠
      sanitizeFilename longSpacedName := by
  refine ⟨by decide, by decide, by decide⟩

/-- C4 witness: the characterization applied at the 10001-entry summary
yields the file-count rejection. -/
theorem claim_C4_witness :
    validateZipSecurity DEFAULT_CONFIG ⟨10001, 1000, 1000⟩ =
      .error .tooManyFilesKind :=
  (claim_C4_gate_order DEFAULT_CONFIG ⟨10001, 1000, 1000⟩).2.1.mpr
    ⟨by decide, by decide⟩

/-- C10 witness: for the non-zero compressed size 2 the ratio comparison
agrees with exact rational division. -/
theorem claim_C10_witness :
    ratioGt 300 2 DEFAULT_CONFIG.maxRatioLimit = true ↔
      ((DEFAULT_CONFIG.maxRatioLimit : Nat) : ℚ) <
        ((300 : Nat) : ℚ) / ((2 : Nat) : ℚ) :=
  (claim_C10_ratio_division DEFAULT_CONFIG ⟨0, 300, 2⟩).2.1 (by decide)
